import Mathlib

/-!
Shallow embedding of the paginated batch-extraction procedure of
`src/batch_import_data.py` (functions `batch_import_bigquery_data` and
`create_sample_from_batches`).

The remote BigQuery client and the filesystem are external collaborators;
they are modelled as explicit parameters:

* the count query's outcome is an `Except Unit Nat` (`Except.error` models
  the count query raising, which the Python code does not catch);
* each batch query, together with the subsequent `to_csv` write, is answered
  by a `client : BatchQuery → BatchOutcome α`, where `BatchQuery` records
  exactly the data the Python code puts into the SQL text of a batch query
  (the fixed ORDER BY column list, the LIMIT and the OFFSET), and
  `BatchOutcome` distinguishes a raising query from a row list returned
  with or without a subsequent write failure;
* rows are an abstract type `α`, since the procedure never inspects row
  contents;
* every filesystem write is recorded in a `Trace` (query list, per-batch
  files with their contents, optional combined file) instead of performed.
-/

deriving instance DecidableEq for Except

namespace BQImport

/-- The `OUTPUT_DIR` global of the source file. -/
def OUTPUT_DIR : String := "batch_data"

/-- The ORDER BY column list every batch query carries
(`ORDER BY cep, latitude, longitude`). -/
def orderByCols : List String := ["cep", "latitude", "longitude"]

/-- The data the source interpolates into a batch query's SQL text:
the ordering key, `LIMIT batch_size` and `OFFSET offset`. -/
structure BatchQuery where
  orderBy : List String
  limit : Nat
  offset : Nat
deriving DecidableEq, Repr

/-- The batch query built in the loop body: fixed ordering key,
`LIMIT batchSize OFFSET offset`. -/
def mkBatchQuery (batchSize offset : Nat) : BatchQuery :=
  { orderBy := orderByCols, limit := batchSize, offset := offset }

/-- Outcome of one loop iteration's external calls: either the batch query
raises, or it returns a list of rows, together with a flag saying whether
the subsequent `to_csv` write raises. -/
inductive BatchOutcome (α : Type) where
  | queryError : BatchOutcome α
  | rows : List α → Bool → BatchOutcome α
deriving DecidableEq

/-- The observable effects of a run: batch queries issued in order,
per-batch files written (path and contents, in the order written), and the
optional combined file. -/
structure Trace (α : Type) where
  queries : List BatchQuery
  batchFiles : List (String × List α)
  combinedFile : Option (String × List α)
deriving DecidableEq

/-- Decimal digits of a natural number, as Python's `str`/`d` format. -/
def natDigits (n : Nat) : List Char := Nat.toDigits 10 n

/-- Zero padding to a minimum width, as Python's `:04d` format spec. -/
def padZero (w : Nat) (s : List Char) : List Char :=
  List.replicate (w - s.length) '0' ++ s

/-- Three-digit grouping of a reversed digit list, helper for `commaFmt`. -/
def commaGroup : List Char → List Char
  | a :: b :: c :: d :: rest => a :: b :: c :: ',' :: commaGroup (d :: rest)
  | l => l

/-- Python's `:,` format spec on a natural number: decimal digits with a
comma every three digits from the right. -/
def commaFmt (n : Nat) : List Char :=
  (commaGroup (natDigits n).reverse).reverse

/-- The per-batch artifact path
`f"{OUTPUT_DIR}/batch_{batch_num + 1:04d}_{len(df_batch):,}_rows.csv"`,
a function of the 1-based index and the actual row count only. -/
def batchFilename (idx rowCount : Nat) : String :=
  OUTPUT_DIR ++ "/batch_" ++ String.mk (padZero 4 (natDigits idx)) ++ "_"
    ++ String.mk (commaFmt rowCount) ++ "_rows.csv"

/-- The fixed combined-artifact path of the source. -/
def combinedFilename : String := "bigquery_all_data_combined.csv"

/-- The fixed sample-artifact path of the source. -/
def sampleFilename : String := "bigquery_sample_from_batches.csv"

/-- The planning step `num_batches = (total_rows + batch_size - 1) // batch_size`. -/
def num_batches (total_rows batch_size : Nat) : Nat :=
  (total_rows + batch_size - 1) / batch_size

/-- The per-batch fetch loop (`for batch_num in range(num_batches)`), run on
an explicit list of batch indices.  Returns the queries issued, the batch
files written and the `all_data` accumulator, each in order.  A raising
query or write is logged and skipped (`except ... continue`); a query
returning zero rows ends the loop (`break`); otherwise the batch file is
written and the rows are appended to `all_data`. -/
def runBatches (client : BatchQuery → BatchOutcome α) (batchSize : Nat) :
    List Nat → List BatchQuery × List (String × List α) × List (List α)
  | [] => ([], [], [])
  | i :: rest =>
    let q := mkBatchQuery batchSize (i * batchSize)
    match client q with
    | BatchOutcome.queryError =>
      let (qs, fs, ds) := runBatches client batchSize rest
      (q :: qs, fs, ds)
    | BatchOutcome.rows rs writeFails =>
      if rs.length = 0 then ([q], [], [])
      else if writeFails then
        let (qs, fs, ds) := runBatches client batchSize rest
        (q :: qs, fs, ds)
      else
        let (qs, fs, ds) := runBatches client batchSize rest
        (q :: qs, (batchFilename (i + 1) rs.length, rs) :: fs, rs :: ds)

/-- `batch_import_bigquery_data(batch_size)`:  count phase (uncaught on
error), planning, per-batch loop, then the combined file iff `all_data` is
nonempty; returns `True`.  The result is the run's trace paired with its
outcome (`Except.error` models the count query's exception propagating out
of the function). -/
def batch_import_bigquery_data (countResult : Except Unit Nat)
    (client : BatchQuery → BatchOutcome α) (batch_size : Nat) :
    Trace α × Except Unit Bool :=
  match countResult with
  | Except.error e => ({ queries := [], batchFiles := [], combinedFile := none }, Except.error e)
  | Except.ok total_rows =>
    let nb := num_batches total_rows batch_size
    let (qs, fs, all_data) := runBatches client batch_size (List.range nb)
    let combined :=
      if all_data.isEmpty then none
      else some (combinedFilename, all_data.flatten)
    ({ queries := qs, batchFiles := fs, combinedFile := combined }, Except.ok true)

/-- The slice of the source a correct offset/limit query returns. -/
def sliceAt (source : List α) (offset limit : Nat) : List α :=
  (source.drop offset).take limit

/-- A client over a fixed, deterministically ordered source that answers
every batch query with the expected slice and never fails. -/
def honestClient (source : List α) : BatchQuery → BatchOutcome α :=
  fun q => BatchOutcome.rows (sliceAt source q.offset q.limit) false

/-- An otherwise honest client whose query at the given offset raises. -/
def failAt (source : List α) (failOffset : Nat) : BatchQuery → BatchOutcome α :=
  fun q => if q.offset = failOffset then BatchOutcome.queryError else honestClient source q

/-- An otherwise honest client for which the `to_csv` write of the batch at
the given offset raises (the query itself returns the expected slice). -/
def failWriteAt (source : List α) (failOffset : Nat) : BatchQuery → BatchOutcome α :=
  fun q =>
    if q.offset = failOffset then BatchOutcome.rows (sliceAt source q.offset q.limit) true
    else honestClient source q

/-- Python string comparison (`"a" < "b"` on code points), as a Boolean
less-or-equal on character lists. -/
def charListLe : List Char → List Char → Bool
  | [], _ => true
  | _ :: _, [] => false
  | x :: xs, y :: ys =>
    if x.toNat < y.toNat then true
    else if y.toNat < x.toNat then false
    else charListLe xs ys

/-- Filename order on directory entries (name paired with file contents). -/
def nameLe (a b : String × List α) : Bool :=
  charListLe a.1.data b.1.data

/-- Insertion step of the filename sort. -/
def insertFile (a : String × List α) :
    List (String × List α) → List (String × List α)
  | [] => [a]
  | b :: bs => if nameLe a b then a :: b :: bs else b :: insertFile a bs

/-- Python's `sorted(...)` on filenames (stable; the names listed from a
directory are distinct, so plain insertion sort models it). -/
def sortFiles : List (String × List α) → List (String × List α)
  | [] => []
  | a :: as => insertFile a (sortFiles as)

/-- Python's `str.endswith`, on the embedded representation. -/
def strEndsWith (s suffix : String) : Bool :=
  decide (s.data.drop (s.data.length - suffix.data.length) = suffix.data)

/-- The sampling loop of `create_sample_from_batches`: append each file's
rows to the accumulator and stop as soon as the accumulated row count
reaches the target. -/
def sampleLoop (sample_size : Nat) (acc : List (List α)) :
    List (List α) → List (List α)
  | [] => acc
  | rows :: rest =>
    let acc2 := acc ++ [rows]
    if sample_size ≤ acc2.flatten.length then acc2
    else sampleLoop sample_size acc2 rest

/-- `create_sample_from_batches(sample_size)`: list the `.csv` files of the
batch directory in sorted filename order, read at most the first 5 of them
accumulating rows until the target is reached, then write the first
`sample_size` accumulated rows under the fixed sample filename.  The
directory listing is a parameter; the result is the sample file written
(`none` when no data was found). -/
def create_sample_from_batches (dirListing : List (String × List α))
    (sample_size : Nat) : Option (String × List α) :=
  let batch_files := sortFiles (dirListing.filter (fun f => strEndsWith f.1 ".csv"))
  let sample_data := sampleLoop sample_size [] ((batch_files.take 5).map (fun f => f.2))
  if sample_data.isEmpty then none
  else some (sampleFilename, sample_data.flatten.take sample_size)

/-! Helper lemmas about the loop, the planning arithmetic and slices. -/

/-- The loop under an honest client over in-range indices: one query per
index at offset `i * B`, one file per index holding the expected slice, and
the accumulator holding the slices in index order. -/
theorem runBatches_honest (source : List α) (B : Nat) (hB : 0 < B) :
    ∀ idxs : List Nat, (∀ i ∈ idxs, i * B < source.length) →
      runBatches (honestClient source) B idxs =
        (idxs.map (fun i => mkBatchQuery B (i * B)),
         idxs.map (fun i => (batchFilename (i + 1) (sliceAt source (i * B) B).length,
            sliceAt source (i * B) B)),
         idxs.map (fun i => sliceAt source (i * B) B)) := by
  intro idxs
  induction idxs with
  | nil => intro _; rfl
  | cons i rest ih =>
    intro h
    have hi : i * B < source.length := h i (List.mem_cons_self i rest)
    have hlen : ¬ (sliceAt source (i * B) B).length = 0 := by
      simp only [sliceAt, List.length_take, List.length_drop]
      omega
    have ihr := ih (fun j hj => h j (List.mem_cons_of_mem i hj))
    simp only [runBatches, honestClient, mkBatchQuery, ihr, hlen, if_false,
      Bool.false_eq_true, List.map_cons]

/-- Every index the plan ranges over designates an offset inside the source. -/
theorem range_nb_lt (R B : Nat) (hB : 0 < B) :
    ∀ i ∈ List.range (num_batches R B), i * B < R := by
  intro i hi
  rw [List.mem_range] at hi
  have h1 : i + 1 ≤ (R + B - 1) / B := hi
  rw [Nat.le_div_iff_mul_le hB] at h1
  have h3 : i * B + B ≤ R + B - 1 := by rw [Nat.succ_mul] at h1; exact h1
  omega

/-- The planned batches cover the whole source. -/
theorem nb_mul_ge (R B : Nat) (hB : 0 < B) : R ≤ num_batches R B * B := by
  have hd := Nat.div_add_mod (R + B - 1) B
  have hm : (R + B - 1) % B < B := Nat.mod_lt _ hB
  have h : R ≤ B * ((R + B - 1) / B) := by omega
  rw [num_batches, Nat.mul_comm]
  exact h

/-- Concatenating the `n` consecutive slices of width `B` reconstructs the
source whenever `n * B` covers its length. -/
theorem flatten_slices (B : Nat) :
    ∀ (n : Nat) (source : List α), source.length ≤ n * B →
      ((List.range n).map (fun i => sliceAt source (i * B) B)).flatten = source := by
  intro n
  induction n with
  | zero =>
    intro s hs
    simp only [Nat.zero_mul, Nat.le_zero, List.length_eq_zero] at hs
    simp [hs]
  | succ n ih =>
    intro s hs
    rw [List.range_succ_eq_map]
    simp only [List.map_cons, List.map_map, List.flatten_cons]
    have h0 : sliceAt s (0 * B) B = s.take B := by simp [sliceAt]
    have hcomp : (List.range n).map ((fun i => sliceAt s (i * B) B) ∘ Nat.succ)
        = (List.range n).map (fun i => sliceAt (s.drop B) (i * B) B) := by
      apply List.map_congr_left
      intro i _
      simp only [Function.comp_apply, sliceAt, List.drop_drop]
      have h1 : i * B + B = Nat.succ i * B := by rw [Nat.succ_mul]
      rw [Nat.add_comm B (i * B), h1]
    rw [h0, hcomp, ih (s.drop B) (by simp only [List.length_drop, Nat.succ_mul] at *; omega)]
    exact List.take_append_drop B s

/-- The planning formula `(R + B - 1) / B` is the ceiling of `R / B`. -/
theorem nb_eq_ceil (R B : Nat) (hB : 0 < B) :
    num_batches R B = ⌈(R : ℚ) / (B : ℚ)⌉₊ := by
  have hBQ : (0 : ℚ) < B := by exact_mod_cast hB
  apply le_antisymm
  · have h1 : (R : ℚ) / B ≤ (⌈(R : ℚ) / (B : ℚ)⌉₊ : ℚ) := Nat.le_ceil _
    rw [div_le_iff₀ hBQ] at h1
    have h3 : R ≤ ⌈(R : ℚ) / (B : ℚ)⌉₊ * B := by exact_mod_cast h1
    rw [num_batches, Nat.div_le_iff_le_mul_add_pred hB]
    have h4 := Nat.mul_comm B (⌈(R : ℚ) / (B : ℚ)⌉₊)
    omega
  · rw [Nat.ceil_le, div_le_iff₀ hBQ]
    have hd := Nat.div_add_mod (R + B - 1) B
    have hm : (R + B - 1) % B < B := Nat.mod_lt _ hB
    have h4 : R ≤ B * ((R + B - 1) / B) := by omega
    rw [num_batches] at *
    calc (R : ℚ) ≤ ((B * ((R + B - 1) / B) : Nat) : ℚ) := by exact_mod_cast h4
    _ = (((R + B - 1) / B : Nat) : ℚ) * B := by push_cast; ring

/-! Claim theorems (first group). -/

/-- C1: with no failures and slice-correct responses, the run issues exactly
ceil(R/B) batch queries, with identical ordering key, LIMIT B and offsets
exactly 0, B, 2B, ... in increasing index order, and the written batches'
actual row counts sum to R. -/
theorem batch_coverage (source : List α) (B : Nat) (hB : 0 < B) :
    (batch_import_bigquery_data (Except.ok source.length) (honestClient source) B).1.queries
      = (List.range (num_batches source.length B)).map (fun i => mkBatchQuery B (i * B))
    ∧ (batch_import_bigquery_data (Except.ok source.length) (honestClient source) B).1.queries.length
      = ⌈(source.length : ℚ) / (B : ℚ)⌉₊
    ∧ ((batch_import_bigquery_data (Except.ok source.length) (honestClient source) B).1.batchFiles.map
        (fun f => f.2.length)).sum = source.length := by
  have hq := runBatches_honest source B hB (List.range (num_batches source.length B))
    (range_nb_lt source.length B hB)
  have hflat := flatten_slices B (num_batches source.length B) source
    (nb_mul_ge source.length B hB)
  refine ⟨?_, ?_, ?_⟩
  · simp only [batch_import_bigquery_data, hq]
  · simp only [batch_import_bigquery_data, hq, List.length_map, List.length_range]
    exact nb_eq_ceil source.length B hB
  · simp only [batch_import_bigquery_data, hq, List.map_map]
    have h1 : ((List.range (num_batches source.length B)).map
        ((fun f : String × List α => f.2.length) ∘
          (fun i => (batchFilename (i + 1) (sliceAt source (i * B) B).length,
            sliceAt source (i * B) B)))).sum
        = ((List.range (num_batches source.length B)).map
            (fun i => sliceAt source (i * B) B)).flatten.length := by
      rw [List.length_flatten, List.map_map]
      rfl
    rw [h1, hflat]

theorem batch_coverage_witness :
    ((batch_import_bigquery_data (Except.ok ([10, 20, 30] : List Nat).length)
        (honestClient [10, 20, 30]) 2).1.batchFiles.map (fun f => f.2.length)).sum
      = ([10, 20, 30] : List Nat).length :=
  (batch_coverage [10, 20, 30] 2 (by decide)).2.2

/-- C6: the planned batch count is the ceiling of totalRows / batchSize, and
a plan of zero batches (totalRows = 0) completes immediately: no query, no
artifact, successful return. -/
theorem planning_ceil_and_zero (R B : Nat) (hB : 0 < B) :
    num_batches R B = ⌈(R : ℚ) / (B : ℚ)⌉₊
    ∧ num_batches 0 B = 0
    ∧ ∀ (client : BatchQuery → BatchOutcome Nat),
        batch_import_bigquery_data (Except.ok 0) client B
          = ({ queries := [], batchFiles := [], combinedFile := none }, Except.ok true) := by
  have h0 : num_batches 0 B = 0 := by
    rw [num_batches]
    exact Nat.div_eq_of_lt (by omega)
  refine ⟨nb_eq_ceil R B hB, h0, ?_⟩
  intro client
  simp [batch_import_bigquery_data, h0, runBatches]

theorem planning_ceil_and_zero_witness :
    num_batches 5 2 = ⌈((5 : Nat) : ℚ) / ((2 : Nat) : ℚ)⌉₊ :=
  (planning_ceil_and_zero 5 2 (by decide)).1

/-- C8: a failing count query propagates out of the procedure uncaught; the
run yields an error and an empty trace (no batch query, no artifact). -/
theorem count_failure_fatal (client : BatchQuery → BatchOutcome α) (B : Nat) :
    batch_import_bigquery_data (Except.error ()) client B
      = ({ queries := [], batchFiles := [], combinedFile := none }, Except.error ()) := rfl

/-- C10: whenever the count phase succeeds the procedure returns True,
including a run with totalRows 0 and a run in which every batch fails. -/
theorem returns_true_always (client : BatchQuery → BatchOutcome α) (R B : Nat) :
    (batch_import_bigquery_data (Except.ok R) client B).2 = Except.ok true
    ∧ (batch_import_bigquery_data (Except.ok 0) client B).2 = Except.ok true
    ∧ (batch_import_bigquery_data (Except.ok R)
        (fun _ => (BatchOutcome.queryError : BatchOutcome α)) B).2 = Except.ok true :=
  ⟨rfl, rfl, rfl⟩

/-- C7 counterexample: two runs that differ in the number of batches written
return the same value, so the return is not a record carrying
totalBatchesWritten. -/
theorem run_result_is_not_a_record :
    (batch_import_bigquery_data (Except.ok 0) (honestClient ([] : List Nat)) 1).2
      = (batch_import_bigquery_data (Except.ok 1) (honestClient [7]) 1).2
    ∧ (batch_import_bigquery_data (Except.ok 0) (honestClient ([] : List Nat)) 1).1.batchFiles.length
      ≠ (batch_import_bigquery_data (Except.ok 1) (honestClient [7]) 1).1.batchFiles.length := by
  decide

/-- C7 amended: for every positive batchSize (indeed for every run whose
count phase succeeds) the procedure returns the bare boolean True; the
return value is the same across all runs and carries no per-run data. -/
theorem run_returns_bare_true (R1 B1 R2 B2 : Nat)
    (c1 : BatchQuery → BatchOutcome α) (c2 : BatchQuery → BatchOutcome β) :
    (batch_import_bigquery_data (Except.ok R1) c1 B1).2 = Except.ok true
    ∧ (batch_import_bigquery_data (Except.ok R1) c1 B1).2
      = (batch_import_bigquery_data (Except.ok R2) c2 B2).2 :=
  ⟨rfl, rfl⟩


/-- Whatever the client does, the `all_data` accumulator holds exactly the
rows of the files written, in the same order. -/
theorem runBatches_data_eq_files (client : BatchQuery → BatchOutcome α) (B : Nat) :
    ∀ idxs : List Nat,
      (runBatches client B idxs).2.2 = (runBatches client B idxs).2.1.map (fun f => f.2) := by
  intro idxs
  induction idxs with
  | nil => rfl
  | cons i rest ih =>
    simp only [runBatches]
    cases hc : client (mkBatchQuery B (i * B)) with
    | queryError => simpa using ih
    | rows rs w =>
      by_cases h0 : rs.length = 0
      · simp [h0]
      · cases w
        · simp only [h0, if_false, Bool.false_eq_true, List.map_cons]
          simpa using ih
        · simpa [h0] using ih

/-- C4: if at least one batch succeeded the combined artifact is written and
its rows are the concatenation of the written batches' rows in order; if no
batch succeeded it is skipped; under an honest client the combined artifact
reproduces the whole source. -/
theorem combination_phase (client : BatchQuery → BatchOutcome α) (R B : Nat)
    (source : List α) (hB : 0 < B) :
    ((batch_import_bigquery_data (Except.ok R) client B).1.batchFiles = []
      → (batch_import_bigquery_data (Except.ok R) client B).1.combinedFile = none)
    ∧ ((batch_import_bigquery_data (Except.ok R) client B).1.batchFiles ≠ []
      → (batch_import_bigquery_data (Except.ok R) client B).1.combinedFile
          = some (combinedFilename,
              ((batch_import_bigquery_data (Except.ok R) client B).1.batchFiles.map
                (fun f => f.2)).flatten))
    ∧ (source ≠ [] →
        (batch_import_bigquery_data (Except.ok source.length) (honestClient source) B).1.combinedFile
          = some (combinedFilename, source)) := by
  have hd := runBatches_data_eq_files client B (List.range (num_batches R B))
  refine ⟨?_, ?_, ?_⟩
  · intro hfs
    simp only [batch_import_bigquery_data] at hfs ⊢
    rw [hd, hfs] at *
    simp [hd, hfs]
  · intro hfs
    simp only [batch_import_bigquery_data] at hfs ⊢
    have hne : ¬ ((runBatches client B (List.range (num_batches R B))).2.1.map
        (fun f => f.2)).isEmpty = true := by
      simp only [List.isEmpty_iff, List.map_eq_nil_iff]
      exact hfs
    simp [hd, hne]
  · intro hs
    have hq := runBatches_honest source B hB (List.range (num_batches source.length B))
      (range_nb_lt source.length B hB)
    have hflat := flatten_slices B (num_batches source.length B) source
      (nb_mul_ge source.length B hB)
    have hnb : 0 < num_batches source.length B := by
      have hlp : 0 < source.length := List.length_pos.mpr hs
      rw [num_batches]
      exact Nat.div_pos (by omega) hB
    have hrange : List.range (num_batches source.length B) ≠ [] := by
      simp only [ne_eq, List.range_eq_nil]
      omega
    simp only [batch_import_bigquery_data, hq]
    have hne : ¬ ((List.range (num_batches source.length B)).map
        (fun i => sliceAt source (i * B) B)).isEmpty = true := by
      simp only [List.isEmpty_iff, List.map_eq_nil_iff]
      exact hrange
    simp [hne, hflat]

theorem combination_phase_witness :
    ((batch_import_bigquery_data (Except.ok ([5] : List Nat).length) (honestClient [5]) 1).1.combinedFile
      = some (combinedFilename, [5]))
    ∧ (batch_import_bigquery_data (Except.ok 2) (honestClient ([5, 6] : List Nat)) 1).1.batchFiles ≠ [] :=
  ⟨(combination_phase (honestClient ([5] : List Nat)) 1 1 [5] (by decide)).2.2 (by decide),
   by decide⟩


/-- The loop under a client whose batch at index k fails (its query raises,
or its query returns the expected slice and the write raises) while every
other in-range index is answered honestly: every index is still queried in
order, and exactly the non-failing indices produce files and accumulator
entries. -/
theorem runBatches_oneFailure (source : List α) (B k : Nat) (hB : 0 < B)
    (client : BatchQuery → BatchOutcome α)
    (hfail : client (mkBatchQuery B (k * B)) = BatchOutcome.queryError
        ∨ client (mkBatchQuery B (k * B)) = BatchOutcome.rows (sliceAt source (k * B) B) true) :
    ∀ idxs : List Nat,
      (∀ i ∈ idxs, i * B < source.length) →
      (∀ i ∈ idxs, i ≠ k →
        client (mkBatchQuery B (i * B)) = BatchOutcome.rows (sliceAt source (i * B) B) false) →
      runBatches client B idxs =
        (idxs.map (fun i => mkBatchQuery B (i * B)),
         (idxs.filter (fun i => i != k)).map
           (fun i => (batchFilename (i + 1) (sliceAt source (i * B) B).length,
              sliceAt source (i * B) B)),
         (idxs.filter (fun i => i != k)).map (fun i => sliceAt source (i * B) B)) := by
  intro idxs
  induction idxs with
  | nil => intro _ _; rfl
  | cons i rest ih =>
    intro h hcl
    have hi : i * B < source.length := h i (List.mem_cons_self i rest)
    have ihr := ih (fun j hj => h j (List.mem_cons_of_mem i hj))
      (fun j hj hjk => hcl j (List.mem_cons_of_mem i hj) hjk)
    have hlen : ¬ (sliceAt source (i * B) B).length = 0 := by
      simp only [sliceAt, List.length_take, List.length_drop]
      omega
    by_cases hik : i = k
    · subst hik
      cases hfail with
      | inl herr =>
        simp only [runBatches, herr, ihr, List.filter_cons, bne_self_eq_false,
          Bool.false_eq_true, if_false, List.map_cons]
      | inr hwr =>
        simp only [runBatches, hwr, ihr, hlen, if_false, if_true, List.filter_cons,
          bne_self_eq_false, Bool.false_eq_true, List.map_cons]
    · have hc := hcl i (List.mem_cons_self i rest) hik
      have hbne : (i != k) = true := by
        simpa using hik
      simp only [runBatches, hc, ihr, hlen, if_false, Bool.false_eq_true,
        List.filter_cons, hbne, if_true, List.map_cons]

/-- C2: when batch k's query raises, or its query succeeds and its file
write raises, the loop just continues with the next index: every planned
batch is still queried exactly once in order (no retry, no abort), every
other batch - batches k-1 and k+1 included, whenever they exist - is still
written, the combined artifact holds exactly the non-k batches' rows, and
the run still returns True. -/
theorem failure_isolation (source : List α) (B k : Nat)
    (client : BatchQuery → BatchOutcome α) (hB : 0 < B)
    (hk : k < num_batches source.length B)
    (hfail : client (mkBatchQuery B (k * B)) = BatchOutcome.queryError
        ∨ client (mkBatchQuery B (k * B)) = BatchOutcome.rows (sliceAt source (k * B) B) true)
    (hother : ∀ i, i < num_batches source.length B → i ≠ k →
        client (mkBatchQuery B (i * B)) = BatchOutcome.rows (sliceAt source (i * B) B) false) :
    (batch_import_bigquery_data (Except.ok source.length) client B).1.queries
      = (List.range (num_batches source.length B)).map (fun i => mkBatchQuery B (i * B))
    ∧ (batch_import_bigquery_data (Except.ok source.length) client B).1.batchFiles
      = ((List.range (num_batches source.length B)).filter (fun i => i != k)).map
          (fun i => (batchFilename (i + 1) (sliceAt source (i * B) B).length,
            sliceAt source (i * B) B))
    ∧ (batch_import_bigquery_data (Except.ok source.length) client B).1.combinedFile
      = (if ((List.range (num_batches source.length B)).filter (fun i => i != k)) = []
         then none
         else some (combinedFilename,
            (((List.range (num_batches source.length B)).filter (fun i => i != k)).map
              (fun i => sliceAt source (i * B) B)).flatten))
    ∧ (batch_import_bigquery_data (Except.ok source.length) client B).2 = Except.ok true
    ∧ (0 < k →
        mkBatchQuery B ((k - 1) * B)
          ∈ (batch_import_bigquery_data (Except.ok source.length) client B).1.queries
        ∧ (batchFilename k (sliceAt source ((k - 1) * B) B).length, sliceAt source ((k - 1) * B) B)
          ∈ (batch_import_bigquery_data (Except.ok source.length) client B).1.batchFiles)
    ∧ (k + 1 < num_batches source.length B →
        mkBatchQuery B ((k + 1) * B)
          ∈ (batch_import_bigquery_data (Except.ok source.length) client B).1.queries
        ∧ (batchFilename (k + 2) (sliceAt source ((k + 1) * B) B).length,
            sliceAt source ((k + 1) * B) B)
          ∈ (batch_import_bigquery_data (Except.ok source.length) client B).1.batchFiles) := by
  have hr := runBatches_oneFailure source B k hB client hfail
    (List.range (num_batches source.length B))
    (range_nb_lt source.length B hB)
    (fun i hi hik => hother i (List.mem_range.mp hi) hik)
  refine ⟨?_, ?_, ?_, rfl, ?_, ?_⟩
  · simp only [batch_import_bigquery_data, hr]
  · simp only [batch_import_bigquery_data, hr]
  · by_cases hf : ((List.range (num_batches source.length B)).filter (fun i => i != k)) = []
    · simp only [batch_import_bigquery_data, hr, hf, List.map_nil, List.isEmpty_nil, if_true]
    · have hne : ¬ (((List.range (num_batches source.length B)).filter (fun i => i != k)).map
          (fun i => sliceAt source (i * B) B)).isEmpty = true := by
        simp only [List.isEmpty_iff, List.map_eq_nil_iff]
        exact hf
      simp only [batch_import_bigquery_data, hr, hne, hf, if_false, Bool.false_eq_true]
  · intro hk0
    have hkm1 : k - 1 ∈ (List.range (num_batches source.length B)).filter (fun i => i != k) := by
      rw [List.mem_filter, List.mem_range]
      constructor
      · omega
      · simp only [bne_iff_ne, ne_eq]
        omega
    constructor
    · simp only [batch_import_bigquery_data, hr]
      exact List.mem_map_of_mem _ (by rw [List.mem_range]; omega)
    · simp only [batch_import_bigquery_data, hr]
      have hmm := List.mem_map_of_mem
        (fun i => (batchFilename (i + 1) (sliceAt source (i * B) B).length,
          sliceAt source (i * B) B))
        hkm1
      simpa [Nat.sub_add_cancel hk0] using hmm
  · intro hk1
    have hkp1 : k + 1 ∈ (List.range (num_batches source.length B)).filter (fun i => i != k) := by
      rw [List.mem_filter, List.mem_range]
      constructor
      · omega
      · simp only [bne_iff_ne, ne_eq]
        omega
    constructor
    · simp only [batch_import_bigquery_data, hr]
      exact List.mem_map_of_mem _ (by rw [List.mem_range]; omega)
    · simp only [batch_import_bigquery_data, hr]
      exact List.mem_map_of_mem _ hkp1

theorem failure_isolation_witness :
    ((batch_import_bigquery_data (Except.ok ([1, 2, 3, 4, 5, 6] : List Nat).length)
        (failAt [1, 2, 3, 4, 5, 6] (1 * 2)) 2).1.batchFiles
      = ((List.range (num_batches ([1, 2, 3, 4, 5, 6] : List Nat).length 2)).filter
          (fun i => i != 1)).map
          (fun i => (batchFilename (i + 1) (sliceAt [1, 2, 3, 4, 5, 6] (i * 2) 2).length,
            sliceAt [1, 2, 3, 4, 5, 6] (i * 2) 2))
    ∧ mkBatchQuery 2 ((1 + 1) * 2)
        ∈ (batch_import_bigquery_data (Except.ok ([1, 2, 3, 4, 5, 6] : List Nat).length)
            (failAt [1, 2, 3, 4, 5, 6] (1 * 2)) 2).1.queries)
    ∧ (batch_import_bigquery_data (Except.ok ([1, 2, 3, 4, 5, 6] : List Nat).length)
        (failWriteAt [1, 2, 3, 4, 5, 6] (1 * 2)) 2).1.batchFiles
      = ((List.range (num_batches ([1, 2, 3, 4, 5, 6] : List Nat).length 2)).filter
          (fun i => i != 1)).map
          (fun i => (batchFilename (i + 1) (sliceAt [1, 2, 3, 4, 5, 6] (i * 2) 2).length,
            sliceAt [1, 2, 3, 4, 5, 6] (i * 2) 2)) := by
  have h1 := failure_isolation [1, 2, 3, 4, 5, 6] 2 1 (failAt [1, 2, 3, 4, 5, 6] (1 * 2))
    (by decide) (by decide) (Or.inl (by decide)) (by decide)
  have h2 := failure_isolation [1, 2, 3, 4, 5, 6] 2 1 (failWriteAt [1, 2, 3, 4, 5, 6] (1 * 2))
    (by decide) (by decide) (Or.inr (by decide)) (by decide)
  exact ⟨⟨h1.2.1, (h1.2.2.2.2.2 (by decide)).1⟩, h2.2.1⟩


/-- The loop stops at a zero-row response: indices before it behave
normally, the zero-row index is queried but produces nothing, and the
indices after it are never touched. -/
theorem runBatches_stop (client : BatchQuery → BatchOutcome α) (B j : Nat)
    (rs : Nat → List α) (w : Bool)
    (hzero : client (mkBatchQuery B (j * B)) = BatchOutcome.rows [] w) :
    ∀ pre : List Nat,
      (∀ i ∈ pre,
        client (mkBatchQuery B (i * B)) = BatchOutcome.rows (rs i) false
          ∧ (rs i).length ≠ 0) →
      ∀ post : List Nat,
        runBatches client B (pre ++ j :: post) =
          (pre.map (fun i => mkBatchQuery B (i * B)) ++ [mkBatchQuery B (j * B)],
           pre.map (fun i => (batchFilename (i + 1) (rs i).length, rs i)),
           pre.map rs) := by
  intro pre
  induction pre with
  | nil =>
    intro _ post
    simp [runBatches, hzero]
  | cons i ps ih =>
    intro h post
    obtain ⟨hci, hli⟩ := h i (List.mem_cons_self i ps)
    have ihr := ih (fun a ha => h a (List.mem_cons_of_mem i ha)) post
    simp only [List.cons_append, runBatches, hci, hli, if_false, Bool.false_eq_true,
      List.map_cons, List.append_eq, ihr]

/-- C3: if the batch query at index j returns zero rows before the plan is
exhausted, the loop stops there: exactly the queries for indices 0..j are
issued, only indices before j produce artifacts, and the run still returns
True (normal completion). -/
theorem early_termination (client : BatchQuery → BatchOutcome α) (R B j : Nat)
    (rs : Nat → List α) (w : Bool)
    (hj : j < num_batches R B)
    (hpre : ∀ i, i < j →
      client (mkBatchQuery B (i * B)) = BatchOutcome.rows (rs i) false
        ∧ (rs i).length ≠ 0)
    (hzero : client (mkBatchQuery B (j * B)) = BatchOutcome.rows [] w) :
    (batch_import_bigquery_data (Except.ok R) client B).1.queries
      = (List.range (j + 1)).map (fun i => mkBatchQuery B (i * B))
    ∧ (batch_import_bigquery_data (Except.ok R) client B).1.batchFiles
      = (List.range j).map (fun i => (batchFilename (i + 1) (rs i).length, rs i))
    ∧ (batch_import_bigquery_data (Except.ok R) client B).2 = Except.ok true := by
  have hsplit : List.range (num_batches R B)
      = List.range j ++ j :: (List.range (num_batches R B - j - 1)).map (fun t => j + (t + 1)) := by
    have h1 : num_batches R B = j + ((num_batches R B - j - 1) + 1) := by omega
    conv_lhs => rw [h1, List.range_add, List.range_succ_eq_map]
    simp only [List.map_cons, Nat.add_zero, List.map_map]
    rfl
  have hr := runBatches_stop client B j rs w hzero (List.range j)
    (fun i hi => hpre i (List.mem_range.mp hi))
    ((List.range (num_batches R B - j - 1)).map (fun t => j + (t + 1)))
  refine ⟨?_, ?_, rfl⟩
  · simp only [batch_import_bigquery_data, hsplit, hr, List.range_succ, List.map_append,
      List.map_cons, List.map_nil]
  · simp only [batch_import_bigquery_data, hsplit, hr]

theorem early_termination_witness :
    (batch_import_bigquery_data (Except.ok 10)
        (fun q => if q.offset < 4 then BatchOutcome.rows [q.offset] false
                  else BatchOutcome.rows ([] : List Nat) false) 2).1.queries
      = (List.range (2 + 1)).map (fun i => mkBatchQuery 2 (i * 2)) :=
  (early_termination
    (fun q => if q.offset < 4 then BatchOutcome.rows [q.offset] false
              else BatchOutcome.rows ([] : List Nat) false)
    10 2 2 (fun i => [i * 2]) false (by decide) (by decide) (by decide)).1


/-- Every file the loop writes is named by `batchFilename` applied to the
1-based index of a successful in-plan batch and its actual row count, and
holds exactly that batch's rows. -/
theorem runBatches_files_shape (client : BatchQuery → BatchOutcome α) (B : Nat) :
    ∀ idxs : List Nat, ∀ f ∈ (runBatches client B idxs).2.1,
      ∃ i rs, i ∈ idxs
        ∧ client (mkBatchQuery B (i * B)) = BatchOutcome.rows rs false
        ∧ rs.length ≠ 0
        ∧ f = (batchFilename (i + 1) rs.length, rs) := by
  intro idxs
  induction idxs with
  | nil => intro f hf; exact absurd hf (List.not_mem_nil f)
  | cons i rest ih =>
    intro f hf
    simp only [runBatches] at hf
    cases hc : client (mkBatchQuery B (i * B)) with
    | queryError =>
      rw [hc] at hf
      obtain ⟨a, rs, ha, h1, h2, h3⟩ := ih f hf
      exact ⟨a, rs, List.mem_cons_of_mem i ha, h1, h2, h3⟩
    | rows rs w =>
      rw [hc] at hf
      by_cases h0 : rs.length = 0
      · simp only [h0, if_true, eq_self_iff_true, if_pos] at hf
        exact absurd hf (List.not_mem_nil f)
      · simp only [h0, if_false] at hf
        cases w with
        | true =>
          simp only [if_true] at hf
          obtain ⟨a, rs2, ha, h1, h2, h3⟩ := ih f hf
          exact ⟨a, rs2, List.mem_cons_of_mem i ha, h1, h2, h3⟩
        | false =>
          simp only [Bool.false_eq_true, if_false, List.mem_cons] at hf
          cases hf with
          | inl hfe => exact ⟨i, rs, List.mem_cons_self i rest, hc, h0, hfe⟩
          | inr hfm =>
            obtain ⟨a, rs2, ha, h1, h2, h3⟩ := ih f hfm
            exact ⟨a, rs2, List.mem_cons_of_mem i ha, h1, h2, h3⟩

/-- C9: every per-batch artifact lands in the batch directory under a name
computed solely from the 1-based batch index (zero-padded to width 4) and
the actual row count, following `batch_<index>_<row count>_rows.csv`, while
the combined and sample artifacts always use the two fixed names. -/
theorem artifact_naming (client : BatchQuery → BatchOutcome α) (R B : Nat)
    (dir : List (String × List α)) (s : Nat) :
    (∀ f ∈ (batch_import_bigquery_data (Except.ok R) client B).1.batchFiles,
      ∃ i rs, i < num_batches R B
        ∧ client (mkBatchQuery B (i * B)) = BatchOutcome.rows rs false
        ∧ f = (batchFilename (i + 1) rs.length, rs))
    ∧ batchFilename 1 100000 = "batch_data/batch_0001_100,000_rows.csv"
    ∧ batchFilename 12 500 = "batch_data/batch_0012_500_rows.csv"
    ∧ (∀ p, (batch_import_bigquery_data (Except.ok R) client B).1.combinedFile = some p
        → p.1 = combinedFilename)
    ∧ (∀ p, create_sample_from_batches dir s = some p → p.1 = sampleFilename)
    ∧ combinedFilename = "bigquery_all_data_combined.csv"
    ∧ sampleFilename = "bigquery_sample_from_batches.csv" := by
  refine ⟨?_, by decide, by decide, ?_, ?_, rfl, rfl⟩
  · intro f hf
    have hf2 : f ∈ (runBatches client B (List.range (num_batches R B))).2.1 := by
      simpa [batch_import_bigquery_data] using hf
    obtain ⟨i, rs, hi, h1, h2, h3⟩ := runBatches_files_shape client B _ f hf2
    exact ⟨i, rs, List.mem_range.mp hi, h1, h3⟩
  · intro p hp
    simp only [batch_import_bigquery_data] at hp
    by_cases hds : ((runBatches client B (List.range (num_batches R B))).2.2).isEmpty
    · simp [hds] at hp
    · simp only [hds, Bool.false_eq_true, if_false, Option.some_inj] at hp
      rw [← hp]
  · intro p hp
    simp [create_sample_from_batches] at hp
    rw [← hp.2]

theorem artifact_naming_witness :
    (combinedFilename, ([5] : List Nat)).1 = combinedFilename
    ∧ batchFilename 1 100000 = "batch_data/batch_0001_100,000_rows.csv" := by
  have h := artifact_naming (honestClient ([5] : List Nat)) 1 1 ([] : List (String × List Nat)) 0
  exact ⟨h.2.2.2.1 (combinedFilename, [5]) (by decide), h.2.1⟩


/-- Totality of the code-point order on character lists. -/
theorem charListLe_total : ∀ a b : List Char, charListLe a b = true ∨ charListLe b a = true := by
  intro a
  induction a with
  | nil => intro b; left; rfl
  | cons x xs ih =>
    intro b
    cases b with
    | nil => right; rfl
    | cons y ys =>
      by_cases h1 : x.toNat < y.toNat
      · left; simp [charListLe, h1]
      · by_cases h2 : y.toNat < x.toNat
        · right; simp [charListLe, h2]
        · cases ih ys with
          | inl h => left; simp [charListLe, h1, h2, h]
          | inr h => right; simp [charListLe, h1, h2, h]

/-- Transitivity of the code-point order on character lists. -/
theorem charListLe_trans : ∀ a b c : List Char,
    charListLe a b = true → charListLe b c = true → charListLe a c = true := by
  intro a
  induction a with
  | nil => intro b c _ _; rfl
  | cons x xs ih =>
    intro b c hab hbc
    cases b with
    | nil => simp [charListLe] at hab
    | cons y ys =>
      cases c with
      | nil => simp [charListLe] at hbc
      | cons z zs =>
        simp only [charListLe] at hab hbc ⊢
        split_ifs at hab hbc ⊢ with g1 g2 g3 g4 g5 g6 <;>
          first
            | rfl
            | omega
            | exact ih ys zs hab hbc

theorem nameLe_total (a b : String × List α) : nameLe a b = true ∨ nameLe b a = true :=
  charListLe_total a.1.data b.1.data

theorem nameLe_trans (a b c : String × List α)
    (hab : nameLe a b = true) (hbc : nameLe b c = true) : nameLe a c = true :=
  charListLe_trans a.1.data b.1.data c.1.data hab hbc

theorem mem_insertFile (a : String × List α) :
    ∀ l : List (String × List α), ∀ x, x ∈ insertFile a l ↔ x = a ∨ x ∈ l := by
  intro l
  induction l with
  | nil => intro x; simp [insertFile]
  | cons b bs ih =>
    intro x
    simp only [insertFile]
    by_cases hab : nameLe a b = true
    · rw [if_pos hab]
      simp only [List.mem_cons]
    · rw [if_neg hab]
      simp only [List.mem_cons, ih x]
      tauto

/-- Inserting into a sorted list keeps it sorted. -/
theorem pairwise_insertFile (a : String × List α) :
    ∀ l : List (String × List α), l.Pairwise (fun x y => nameLe x y = true) →
      (insertFile a l).Pairwise (fun x y => nameLe x y = true) := by
  intro l
  induction l with
  | nil => intro _; exact List.pairwise_singleton _ a
  | cons b bs ih =>
    intro hp
    rcases List.pairwise_cons.mp hp with ⟨hb, hbs⟩
    simp only [insertFile]
    by_cases hab : nameLe a b = true
    · rw [if_pos hab]
      refine List.pairwise_cons.mpr ⟨?_, hp⟩
      intro x hx
      rcases List.mem_cons.mp hx with rfl | hxbs
      · exact hab
      · exact nameLe_trans a b x hab (hb x hxbs)
    · rw [if_neg hab]
      refine List.pairwise_cons.mpr ⟨?_, ih hbs⟩
      intro x hx
      rcases (mem_insertFile a bs x).mp hx with rfl | hxbs
      · rcases nameLe_total b x with h | h
        · exact h
        · exact absurd h hab
      · exact hb x hxbs

theorem perm_insertFile (a : String × List α) :
    ∀ l : List (String × List α), (insertFile a l).Perm (a :: l) := by
  intro l
  induction l with
  | nil => exact List.Perm.refl _
  | cons b bs ih =>
    simp only [insertFile]
    by_cases hab : nameLe a b = true
    · rw [if_pos hab]
    · rw [if_neg hab]
      exact (ih.cons b).trans (List.Perm.swap a b bs)

/-- The filename sort produces a sorted list. -/
theorem sortFiles_pairwise :
    ∀ l : List (String × List α), (sortFiles l).Pairwise (fun x y => nameLe x y = true) := by
  intro l
  induction l with
  | nil => exact List.Pairwise.nil
  | cons a as ih => exact pairwise_insertFile a (sortFiles as) ih

/-- The filename sort is a permutation of its input. -/
theorem sortFiles_perm :
    ∀ l : List (String × List α), (sortFiles l).Perm l := by
  intro l
  induction l with
  | nil => exact List.Perm.refl _
  | cons a as ih => exact (perm_insertFile a (sortFiles as)).trans (ih.cons a)


/-- The part of the file list the sampling loop actually consumes, given the
row count accumulated so far. -/
def consume (sample_size : Nat) : Nat → List (List α) → List (List α)
  | _, [] => []
  | c, r :: rest =>
    r :: (if sample_size ≤ c + r.length then [] else consume sample_size (c + r.length) rest)

/-- The sampling loop is its accumulator followed by the consumed part of
the remaining file list. -/
theorem sampleLoop_eq_consume (s : Nat) :
    ∀ (l : List (List α)) (acc : List (List α)),
      sampleLoop s acc l = acc ++ consume s acc.flatten.length l := by
  intro l
  induction l with
  | nil => intro acc; simp [sampleLoop, consume]
  | cons r rest ih =>
    intro acc
    simp only [sampleLoop, consume]
    have hlen : (acc ++ [r]).flatten.length = acc.flatten.length + r.length := by
      simp
    by_cases hc : s ≤ acc.flatten.length + r.length
    · rw [if_pos (by rw [hlen]; exact hc), if_pos hc]
    · rw [if_neg (by rw [hlen]; exact hc), if_neg hc, ih (acc ++ [r]), hlen]
      simp
  
/-- The consumed part is a prefix of the file list. -/
theorem consume_is_take (s : Nat) :
    ∀ (l : List (List α)) (c : Nat),
      consume s c l = l.take (consume s c l).length := by
  intro l
  induction l with
  | nil => intro c; rfl
  | cons r rest ih =>
    intro c
    simp only [consume]
    by_cases hc : s ≤ c + r.length
    · rw [if_pos hc]
      rfl
    · rw [if_neg hc]
      simp only [List.length_cons, List.take_succ_cons]
      rw [← ih (c + r.length)]

/-- If the loop stopped before the end of the file list, the accumulated
row count had reached the target. -/
theorem consume_stop (s : Nat) :
    ∀ (l : List (List α)) (c : Nat),
      (consume s c l).length < l.length → s ≤ c + (consume s c l).flatten.length := by
  intro l
  induction l with
  | nil => intro c h; simp [consume] at h
  | cons r rest ih =>
    intro c h
    simp only [consume] at h ⊢
    by_cases hc : s ≤ c + r.length
    · rw [if_pos hc]
      simpa using hc
    · rw [if_neg hc]
      rw [if_neg hc] at h
      simp only [List.length_cons, Nat.add_lt_add_iff_right] at h
      have := ih (c + r.length) h
      simp only [List.flatten_cons, List.length_append]
      omega

/-- The loop never reads past the first file that reaches the target: every
proper nonempty prefix of what it consumed was still short of the target. -/
theorem consume_minimal (s : Nat) :
    ∀ (l : List (List α)) (c : Nat) (k : Nat), 0 < k → k < (consume s c l).length →
      c + (l.take k).flatten.length < s := by
  intro l
  induction l with
  | nil => intro c k _ h; simp [consume] at h
  | cons r rest ih =>
    intro c k hk h
    simp only [consume] at h
    by_cases hc : s ≤ c + r.length
    · rw [if_pos hc] at h
      simp at h
      omega
    · rw [if_neg hc] at h
      simp only [List.length_cons] at h
      cases k with
      | zero => omega
      | succ k2 =>
        simp only [List.take_succ_cons, List.flatten_cons, List.length_append]
        cases Nat.eq_zero_or_pos k2 with
        | inl h0 =>
          subst h0
          simp only [List.take_zero, List.flatten_nil, List.length_nil, Nat.add_zero]
          omega
        | inr hpos =>
          have := ih (c + r.length) k2 hpos (by omega)
          omega


/-- C5: the sampling phase lists the `.csv` artifacts in sorted filename
order, reads at most the first 5, reads each next file only while the
accumulated row count is still below the target, and writes exactly the
first sampleSize rows of what it read - or all of them when the at most 5
files read hold fewer (not an error). -/
theorem sampling_phase (dir : List (String × List α)) (s : Nat)
    (files : List (String × List α)) (L P : List (List α))
    (hfiles : files = sortFiles (dir.filter (fun f => strEndsWith f.1 ".csv")))
    (hL : L = (files.take 5).map (fun f => f.2))
    (hP : P = sampleLoop s [] L) :
    files.Pairwise (fun x y => nameLe x y = true)
    ∧ files.Perm (dir.filter (fun f => strEndsWith f.1 ".csv"))
    ∧ P = L.take P.length
    ∧ P.length ≤ 5
    ∧ (P.length < L.length → s ≤ P.flatten.length)
    ∧ (∀ k, 0 < k → k < P.length → (L.take k).flatten.length < s)
    ∧ create_sample_from_batches dir s
        = (if P.isEmpty then none else some (sampleFilename, P.flatten.take s))
    ∧ (s ≤ P.flatten.length → (P.flatten.take s).length = s)
    ∧ (P.flatten.length < s → P.flatten.take s = P.flatten) := by
  subst hP
  subst hL
  subst hfiles
  set flt := dir.filter (fun f => strEndsWith f.1 ".csv") with hflt
  set L := ((sortFiles flt).take 5).map (fun f => f.2) with hLd
  have hPc : sampleLoop s ([] : List (List α)) L = consume s 0 L := by
    have h := sampleLoop_eq_consume s L ([] : List (List α))
    simpa using h
  have htake : consume s 0 L = L.take (consume s 0 L).length := consume_is_take s L 0
  have hlen5 : L.length ≤ 5 := by
    rw [hLd]
    simp only [List.length_map, List.length_take]
    exact Nat.min_le_left 5 _
  have hlenP : (sampleLoop s ([] : List (List α)) L).length ≤ L.length := by
    rw [hPc]
    have h := congrArg List.length htake
    rw [List.length_take] at h
    omega
  refine ⟨sortFiles_pairwise flt, sortFiles_perm flt, ?_, ?_, ?_, ?_, ?_, ?_, ?_⟩
  · rw [hPc]
    exact htake
  · omega
  · intro h
    rw [hPc] at h ⊢
    simpa using consume_stop s L 0 h
  · intro k hk hkP
    rw [hPc] at hkP
    simpa using consume_minimal s L 0 k hk hkP
  · rfl
  · intro h
    rw [List.length_take]
    omega
  · intro h
    exact List.take_of_length_le (Nat.le_of_lt h)

theorem sampling_phase_witness :
    create_sample_from_batches ([("b.csv", [3, 4]), ("a.csv", [1, 2])] : List (String × List Nat)) 3
      = (if ([[1, 2], [3, 4]] : List (List Nat)).isEmpty then none
         else some (sampleFilename, ([[1, 2], [3, 4]] : List (List Nat)).flatten.take 3)) :=
  (sampling_phase [("b.csv", [3, 4]), ("a.csv", [1, 2])] 3
    [("a.csv", [1, 2]), ("b.csv", [3, 4])] [[1, 2], [3, 4]] [[1, 2], [3, 4]]
    (by decide) (by decide) (by decide)).2.2.2.2.2.2.1

end BQImport
